import Mathlib

set_option linter.unusedVariables false

/-!
Verification of the capture-compare-stitch engine of the `capture` repository.

The Rust sources are shallowly embedded: `RgbaImage` becomes `Raster` (dimensions
plus a total pixel-lookup function), imperative pixel loops become left folds of
functional updates executed in the source's iteration order, `u32` arithmetic is
natural-number arithmetic with explicit wrapping where Rust release builds wrap,
and the `f32` difference percentage is modelled exactly with rationals (every
percentage the theorems below touch is exactly representable: the literal `100.0`
and `0.0 / n * 100.0 = 0.0`).
-/

namespace Capture

/-- RGBA pixel with four 8-bit channels; the channel width never matters to the
algorithms under study, so channels are plain naturals. -/
structure Pixel where
  r : Nat
  g : Nat
  b : Nat
  a : Nat
  deriving DecidableEq

/-- The zero pixel: the `image` crate zero-fills freshly allocated buffers. -/
def zeroPixel : Pixel := ⟨0, 0, 0, 0⟩

/-- Model of `RgbaImage`: width, height and a total pixel-lookup function
(`get_pixel`).  The code under study only reads in-bounds pixels wherever a
theorem below depends on the value, so totality of `get` is harmless. -/
structure Raster where
  width : Nat
  height : Nat
  get : Nat → Nat → Pixel

/-- Model of `put_pixel`: functional update at one coordinate. -/
def Raster.put (img : Raster) (x y : Nat) (p : Pixel) : Raster :=
  { img with get := fun x0 y0 => if x0 = x ∧ y0 = y then p else img.get x0 y0 }

/-- Model of `ImageBuffer::new(w, h)`: a zero-filled raster. -/
def newImage (w h : Nat) : Raster := ⟨w, h, fun _ _ => zeroPixel⟩

theorem Raster.get_put_same (img : Raster) (x y : Nat) (p : Pixel) :
    (img.put x y p).get x y = p := by
  simp [Raster.put]

theorem Raster.get_put_other (img : Raster) (x y x0 y0 : Nat) (p : Pixel)
    (h : x0 ≠ x ∨ y0 ≠ y) : (img.put x y p).get x0 y0 = img.get x0 y0 := by
  rcases h with h | h <;> simp [Raster.put, h]

theorem Raster.put_width (img : Raster) (x y : Nat) (p : Pixel) :
    (img.put x y p).width = img.width := rfl

theorem Raster.put_height (img : Raster) (x y : Nat) (p : Pixel) :
    (img.put x y p).height = img.height := rfl

/-- Modulus of Rust `u32` arithmetic. -/
def UMOD : Nat := 4294967296

/-- Rust release-mode `u32` subtraction: wraps on underflow (operands are `u32`
values, i.e. below `UMOD`). -/
def usub (a b : Nat) : Nat := if b ≤ a then a - b else a + UMOD - b

/-- Rust release-mode `u32` multiplication. -/
def umul (a b : Nat) : Nat := a * b % UMOD

/-- Rust release-mode `u32` addition. -/
def uadd (a b : Nat) : Nat := (a + b) % UMOD

theorem usub_of_le {a b : Nat} (h : b ≤ a) : usub a b = a - b := by
  simp [usub, h]

theorem umul_of_lt {a b : Nat} (h : a * b < UMOD) : umul a b = a * b :=
  Nat.mod_eq_of_lt h

theorem uadd_of_lt {a b : Nat} (h : a + b < UMOD) : uadd a b = a + b :=
  Nat.mod_eq_of_lt h

/-- A fold of raster updates leaves a pixel unchanged when no step writes to it. -/
theorem foldl_get_preserve {α : Type} (step : Raster → α → Raster) (L : List α) (x y : Nat)
    (h : ∀ e ∈ L, ∀ s : Raster, (step s e).get x y = s.get x y) (init : Raster) :
    (L.foldl step init).get x y = init.get x y := by
  induction L generalizing init with
  | nil => rfl
  | cons e rest ih =>
    rw [List.foldl_cons,
      ih (fun e' he' s => h e' (List.mem_cons_of_mem _ he') s) (step init e),
      h e (List.mem_cons_self _ _) init]

/-- A fold of raster updates yields, at a pixel, the value written by a step that no
later step disturbs. -/
theorem foldl_get_last {α : Type} (step : Raster → α → Raster) (L1 : List α) (e : α)
    (L2 : List α) (x y : Nat) (v : Pixel)
    (he : ∀ s : Raster, (step s e).get x y = v)
    (h2 : ∀ e' ∈ L2, ∀ s : Raster, (step s e').get x y = s.get x y) (init : Raster) :
    ((L1 ++ e :: L2).foldl step init).get x y = v := by
  rw [List.foldl_append, List.foldl_cons, foldl_get_preserve step L2 x y h2, he]

/-- A fold of raster updates preserves any dimension-like observation each step
preserves. -/
theorem foldl_dim_preserve {α : Type} (f : Raster → Nat) (step : Raster → α → Raster)
    (L : List α) (h : ∀ e ∈ L, ∀ s : Raster, f (step s e) = f s) (init : Raster) :
    f (L.foldl step init) = f init := by
  induction L generalizing init with
  | nil => rfl
  | cons e rest ih =>
    rw [List.foldl_cons,
      ih (fun e' he' s => h e' (List.mem_cons_of_mem _ he') s) (step init e),
      h e (List.mem_cons_self _ _) init]

/-- Model of `images_are_identical` (src/lib.rs): `false` on any dimension
mismatch, otherwise a full scan that returns `false` the instant one differing
pixel is found (the source's early `return false` once `diff_count > 0`), `true`
only when every pixel agrees. -/
def images_are_identical (img1 img2 : Raster) : Bool :=
  if img1.width ≠ img2.width ∨ img1.height ≠ img2.height then false
  else
    (List.range img1.height).all fun y =>
      (List.range img1.width).all fun x => img1.get x y = img2.get x y

/-- Difference percentage `diff_count / total_pixels * 100`, modelled in ℚ.
Caveat: ℚ division by zero yields 0 whereas the source's f32 division
`0.0 / 0.0` yields NaN; `pctF32` below models that case faithfully and is used
wherever an empty band can matter.  No theorem about this ℚ model touches the
zero-denominator case. -/
def pctQ (diffCount totalPixels : Nat) : ℚ := (diffCount : ℚ) / (totalPixels : ℚ) * 100

/-- Model of the hard-coded mismatch budget `(total_pixels as f32 * 0.00) as usize`
of `images_are_similar`. -/
def similarThreshold (totalPixels : Nat) : Nat := (⌊(totalPixels : ℚ) * 0⌋).toNat

/-- Row-major iteration order of a nested `for y in 0..rows { for x in 0..cols }`
loop, as used by the comparison band scan, the stitch copy loops and the crop
copy loop. -/
def rowMajor (rows cols : Nat) : List (Nat × Nat) :=
  (List.range rows).flatMap fun y => (List.range cols).map fun x => (y, x)

/-- The scan loop of `images_are_similar`: walks the overlap band accumulating
`diff_count`, exiting early with `(false, percentage-so-far)` as soon as the count
exceeds the threshold, and returning `(true, final percentage)` after a full scan. -/
def similarScan (img1 img2 : Raster) (startY1 totalPixels threshold : Nat) :
    List (Nat × Nat) → Nat → Bool × ℚ
  | [], diffCount => (true, pctQ diffCount totalPixels)
  | (y, x) :: rest, diffCount =>
    if img1.get x (startY1 + y) ≠ img2.get x y then
      if threshold < diffCount + 1 then (false, pctQ (diffCount + 1) totalPixels)
      else similarScan img1 img2 startY1 totalPixels threshold rest (diffCount + 1)
    else similarScan img1 img2 startY1 totalPixels threshold rest diffCount

/-- Model of `images_are_similar` (verbatim-identical in src/lib.rs and
src/main.rs): `(false, 100)` on a dimension mismatch or when the overlap is not
smaller than the height; otherwise compares the bottom `overlap_height` rows of
`img1` with the top `overlap_height` rows of `img2` under the zero mismatch
budget `similarThreshold`. -/
def images_are_similar (img1 img2 : Raster) (overlapHeight : Nat) : Bool × ℚ :=
  if img1.width ≠ img2.width ∨ img1.height ≠ img2.height then (false, 100)
  else if img1.height ≤ overlapHeight then (false, 100)
  else
    similarScan img1 img2 (img1.height - overlapHeight)
      (umul overlapHeight img1.width)
      (similarThreshold (umul overlapHeight img1.width))
      (rowMajor overlapHeight img1.width) 0

/-- The f32 percentage expression `diff_count as f32 / total_pixels as f32 * 100.0`
with its NaN case modelled: `none` stands for the NaN produced by `0.0 / 0.0`
when `total_pixels = 0`; for a nonzero denominator the value is exact in ℚ
wherever the theorems below touch it (`diff_count = 0` and the literal `100.0`). -/
def pctF32 (diffCount totalPixels : Nat) : Option ℚ :=
  if totalPixels = 0 then none
  else some ((diffCount : ℚ) / (totalPixels : ℚ) * 100)

/-- The scan loop of `images_are_similar` with the NaN-aware percentage model:
control flow identical to `similarScan`. -/
def similarScanF (img1 img2 : Raster) (startY1 totalPixels threshold : Nat) :
    List (Nat × Nat) → Nat → Bool × Option ℚ
  | [], diffCount => (true, pctF32 diffCount totalPixels)
  | (y, x) :: rest, diffCount =>
    if img1.get x (startY1 + y) ≠ img2.get x y then
      if threshold < diffCount + 1 then (false, pctF32 (diffCount + 1) totalPixels)
      else similarScanF img1 img2 startY1 totalPixels threshold rest (diffCount + 1)
    else similarScanF img1 img2 startY1 totalPixels threshold rest diffCount

/-- Re-embedding of `images_are_similar` with the f32 percentage modelled
NaN-aware (`some 100` for the literal `100.0` returns, `none` for NaN): used to
settle the percentage behaviour at an empty overlap band, which the ℚ model of
`images_are_similar` cannot express. -/
def images_are_similar_f32 (img1 img2 : Raster) (overlapHeight : Nat) :
    Bool × Option ℚ :=
  if img1.width ≠ img2.width ∨ img1.height ≠ img2.height then (false, some 100)
  else if img1.height ≤ overlapHeight then (false, some 100)
  else
    similarScanF img1 img2 (img1.height - overlapHeight)
      (umul overlapHeight img1.width)
      (similarThreshold (umul overlapHeight img1.width))
      (rowMajor overlapHeight img1.width) 0

/-- One write of the copy loop of `stitch_images` in src/lib.rs, for frame `i` at
vertical offset `yOff`, at source row/column `c = (y, x)`: mirrors
`if target_y < total_height` guarding `if i > 0 && y < overlap` (which copies
only when `y >= overlap / 2`) against the verbatim copy of the `else` branch. -/
def stitchCell (overlap totalHeight yOff i : Nat) (img : Raster)
    (res : Raster) (c : Nat × Nat) : Raster :=
  if uadd yOff c.1 < totalHeight then
    if 0 < i ∧ c.1 < overlap then
      if overlap / 2 ≤ c.1 then res.put c.2 (uadd yOff c.1) (img.get c.2 c.1) else res
    else res.put c.2 (uadd yOff c.1) (img.get c.2 c.1)
  else res

/-- Processing of one enumerated frame by `stitch_images` in src/lib.rs: the
row-major double loop `for y in 0..single_height { for x in 0..width { ... } }`
with `y_offset = i as u32 * (single_height - overlap)`. -/
def stitchFrame (overlap totalHeight singleHeight width : Nat)
    (res : Raster) (e : Nat × Raster) : Raster :=
  (rowMajor singleHeight width).foldl
    (stitchCell overlap totalHeight (umul e.1 (usub singleHeight overlap)) e.1 e.2) res

/-- Model of `stitch_images` in src/lib.rs: an empty input yields a 1×1
placeholder; otherwise the frames are copied in order into a buffer of height
`single_height + (len - 1) * (single_height - overlap)`, each frame `i > 0`
contributing only the rows of the overlap band at or past its midpoint. -/
def stitch_images (images : List Raster) (overlap : Nat) : Raster :=
  match images with
  | [] => newImage 1 1
  | first :: _ =>
    let width := first.width
    let singleHeight := first.height
    let totalHeight :=
      uadd singleHeight (umul (images.length - 1) (usub singleHeight overlap))
    images.enum.foldl (stitchFrame overlap totalHeight singleHeight width)
      (newImage width totalHeight)

/-- One write of the copy loop of the `stitch_images` copy in src/main.rs: for
frame `i > 0` the whole overlap band `y < overlap` is skipped (`continue`), and
every other in-range cell is copied verbatim. -/
def mainStitchCell (overlap totalHeight yOff i : Nat) (img : Raster)
    (res : Raster) (c : Nat × Nat) : Raster :=
  if uadd yOff c.1 < totalHeight then
    if 0 < i ∧ c.1 < overlap then res
    else res.put c.2 (uadd yOff c.1) (img.get c.2 c.1)
  else res

/-- Processing of one enumerated frame by the `stitch_images` copy in src/main.rs. -/
def mainStitchFrame (overlap totalHeight singleHeight width : Nat)
    (res : Raster) (e : Nat × Raster) : Raster :=
  (rowMajor singleHeight width).foldl
    (mainStitchCell overlap totalHeight (umul e.1 (usub singleHeight overlap)) e.1 e.2) res

/-- Model of the `stitch_images` copy in src/main.rs: same dimensions as the
src/lib.rs version, but each frame `i > 0` skips its entire overlap band. -/
def main_stitch_images (images : List Raster) (overlap : Nat) : Raster :=
  match images with
  | [] => newImage 1 1
  | first :: _ =>
    let width := first.width
    let singleHeight := first.height
    let totalHeight :=
      uadd singleHeight (umul (images.length - 1) (usub singleHeight overlap))
    images.enum.foldl (mainStitchFrame overlap totalHeight singleHeight width)
      (newImage width totalHeight)

/-- Crop phase of `capture_screen` (src/lib.rs): each crop coordinate is clamped
by `.max(0) as u32`; when the clamped rectangle fits inside the captured raster
the sub-rectangle is copied out, otherwise the condition is logged and the full
raster is returned. -/
def apply_crop (rgba : Raster) (cropRegion : Option (Int × Int × Int × Int)) : Raster :=
  match cropRegion with
  | none => rgba
  | some (cx, cy, cw, ch) =>
    if (max cx 0).toNat + (max cw 0).toNat ≤ rgba.width ∧
        (max cy 0).toNat + (max ch 0).toNat ≤ rgba.height then
      (rowMajor (max ch 0).toNat (max cw 0).toNat).foldl
        (fun res c =>
          res.put c.2 c.1 (rgba.get ((max cx 0).toNat + c.2) ((max cy 0).toNat + c.1)))
        (newImage (max cw 0).toNat (max ch 0).toNat)
    else rgba

/-- The claim's reading of a crop region fitting entirely within the bounds of a
`w × h` raster: offsets non-negative and the rectangle contained; a negative `x`
or `y` offset therefore never fits.  Stated from the spec's words for comparison
with `apply_crop`, which clamps before testing. -/
def regionWithinBounds (cx cy cw ch : Int) (w h : Nat) : Prop :=
  0 ≤ cx ∧ 0 ≤ cy ∧ cx + cw ≤ (w : Int) ∧ cy + ch ≤ (h : Int)

instance (cx cy cw ch : Int) (w h : Nat) : Decidable (regionWithinBounds cx cy cw ch w h) := by
  unfold regionWithinBounds; infer_instance

/-- Rust `str::split` with a character predicate: splits at every matching
character and keeps empty substrings. -/
def splitChars (p : Char → Bool) : List Char → List (List Char)
  | [] => [[]]
  | c :: rest =>
    if p c then [] :: splitChars p rest
    else
      match splitChars p rest with
      | [] => [[c]]
      | s :: ss => (c :: s) :: ss

/-- Rust `str::trim`, restricted to the whitespace characters that can occur in
the inputs under study. -/
def trimChars (cs : List Char) : List Char :=
  ((cs.dropWhile Char.isWhitespace).reverse.dropWhile Char.isWhitespace).reverse

/-- Digit run of Rust integer parsing: at least one character, all ASCII digits. -/
def parseDigits (cs : List Char) : Option Nat :=
  if cs.isEmpty then none
  else if cs.all Char.isDigit then
    some (cs.foldl (fun acc c => acc * 10 + (c.toNat - 48)) 0)
  else none

/-- Rust `str::parse::<i32>`: optional sign, one or more digits, within the
`i32` range. -/
def parseI32 (cs : List Char) : Option Int :=
  match cs with
  | '+' :: rest =>
    (parseDigits rest).bind fun n => if n ≤ 2147483647 then some (n : Int) else none
  | '-' :: rest =>
    (parseDigits rest).bind fun n => if n ≤ 2147483648 then some (-(n : Int)) else none
  | _ =>
    (parseDigits cs).bind fun n => if n ≤ 2147483647 then some (n : Int) else none

/-- The numeric fields a rectangle string yields: split on comma, colon or space,
then `filter_map(|s| s.trim().parse().ok())` (non-numeric fields are dropped). -/
def cropFields (cropStr : String) : List Int :=
  ((splitChars (fun c => c == ',' || c == ':' || c == ' ') cropStr.toList).filterMap
    fun s => parseI32 (trimChars s))

/-- Model of `parse_crop_region` (identical in src/lib.rs and src/presets.rs):
`Some` exactly when four numeric fields are found and the third and fourth
(width and height) are positive. -/
def parse_crop_region (cropStr : String) : Option (Int × Int × Int × Int) :=
  match cropFields cropStr with
  | [a, b, w, h] => if 0 < w ∧ 0 < h then some (a, b, w, h) else none
  | _ => none

/-- The built-in presets of src/presets.rs, as the name → rectangle-string list
inserted by `get_builtin_presets`. -/
def get_builtin_presets : List (String × String) :=
  [("1080p", "0,0,1920,1080"), ("720p", "0,0,1280,720"), ("4k", "0,0,3840,2160"),
   ("naver-series", "607,23,690,1007"), ("vm-small", "100,100,1024,768"),
   ("vm-medium", "100,100,1280,800"), ("vm-large", "100,100,1920,1080")]

/-- Crop-value resolution of `main` (src/main.rs, lines 1023–1040): when a preset
name is supplied it is looked up first and its value used (a missing name is a
fatal error); the explicit `--crop` string is consulted only when no preset name
is supplied.  `allPresets` stands for the mapping `get_all_presets` returns. -/
def resolveCropValue (cropPreset : Option String) (crop : Option String)
    (allPresets : String → Option String) : Except String (Option String) :=
  match cropPreset with
  | some name =>
    match allPresets name with
    | some value => Except.ok (some value)
    | none => Except.error "Preset not found"
  | none => Except.ok crop

/-- Crop-option preparation of `CaptureApp::run_capture` (src/gui.rs, lines
306–322): the preset branch is tested first; the manual rectangle is formatted
only when the preset branch is not taken and cropping is enabled. -/
def gui_crop_option (usePreset : Bool) (selectedPreset : String)
    (allPresets : String → Option String) (cropEnabled : Bool)
    (cropX cropY cropW cropH : Int) : Option String :=
  if usePreset ∧ selectedPreset ≠ "" then allPresets selectedPreset
  else if cropEnabled then
    some (toString cropX ++ "," ++ toString cropY ++ "," ++ toString cropW ++ ","
      ++ toString cropH)
  else none

/-- State accumulated by the screenshot loop of `capture_with_scroll`
(src/lib.rs): the surviving frames, the previous capture, and the scroll count. -/
structure LoopState where
  images : List Raster
  previous : Raster
  scrollCount : Nat

/-- Outcome of one iteration of the screenshot loop: either the loop continues
with an updated state, or it breaks out to stitching with the final state. -/
inductive StepResult where
  | next (st : LoopState)
  | stitchNow (st : LoopState)

/-- Body of one iteration of `capture_with_scroll` (src/lib.rs) after the
max-scroll guard: the key is pressed, the content settles, `cap` is captured;
when the new capture is identical to the previous one the loop breaks to
stitching with nothing appended and the count unchanged; otherwise the capture is
appended, `previous` advances, the count increments, and the loop breaks only
when the user presses Q (`userStop`). -/
def loopBody (st : LoopState) (cap : Raster) (userStop : Bool) : StepResult :=
  if images_are_identical st.previous cap then StepResult.stitchNow st
  else
    let st' : LoopState := ⟨st.images ++ [cap], cap, st.scrollCount + 1⟩
    if userStop then StepResult.stitchNow st' else StepResult.next st'

/-- One iteration of the `loop` in `capture_with_scroll` (src/lib.rs): the
max-scroll guard runs first and breaks to stitching before any scroll happens. -/
def loopStep (maxScrolls : Option Nat) (st : LoopState) (cap : Raster)
    (userStop : Bool) : StepResult :=
  match maxScrolls with
  | some maxN => if maxN ≤ st.scrollCount then StepResult.stitchNow st
                 else loopBody st cap userStop
  | none => loopBody st cap userStop

/-- State after the seed capture of `capture_with_scroll`: one frame captured,
zero scrolls performed. -/
def initialLoopState (first : Raster) : LoopState := ⟨[first], first, 0⟩

/-- The screenshot loop, driven by a finite stream of (capture, user-stop)
inputs; returns the state handed to `stitch_images`.  When the stream is
exhausted the current state is returned (the claims below only concern runs that
break out of the loop). -/
def runLoop (maxScrolls : Option Nat) (st : LoopState) :
    List (Raster × Bool) → LoopState
  | [] => st
  | (cap, stop) :: rest =>
    match loopStep maxScrolls st cap stop with
    | StepResult.stitchNow st' => st'
    | StepResult.next st' => runLoop maxScrolls st' rest

/-- Final composite of the direct screenshot mode: once the loop breaks, the
accumulated frames go to `stitch_images`. -/
def captureScrollResult (overlap : Nat) (maxScrolls : Option Nat) (first : Raster)
    (inputs : List (Raster × Bool)) : Raster :=
  stitch_images (runLoop maxScrolls (initialLoopState first) inputs).images overlap

/-- One iteration of the `while scroll_count < max_scrolls` loop of the
`capture_with_scroll` copy in src/main.rs (lines 819–863): there `max_scrolls`
is mandatory and the guard runs first, and the loop breaks to stitching when
`images_are_similar` — the overlap-band comparison, not the full-frame identity
comparison — reports similar; otherwise the capture is appended, `previous`
advances, the count increments, and the user may still stop with Q. -/
def mainLoopStep (maxScrolls overlap : Nat) (st : LoopState) (cap : Raster)
    (userStop : Bool) : StepResult :=
  if maxScrolls ≤ st.scrollCount then StepResult.stitchNow st
  else if (images_are_similar st.previous cap overlap).1 then StepResult.stitchNow st
  else
    let st' : LoopState := ⟨st.images ++ [cap], cap, st.scrollCount + 1⟩
    if userStop then StepResult.stitchNow st' else StepResult.next st'

/-- Lexicographic strict order on (row, column) cells: the order in which
`rowMajor` emits them. -/
def cellLt (p q : Nat × Nat) : Prop := p.1 < q.1 ∨ (p.1 = q.1 ∧ p.2 < q.2)

theorem mem_rowMajor {R C : Nat} {p : Nat × Nat} :
    p ∈ rowMajor R C ↔ p.1 < R ∧ p.2 < C := by
  obtain ⟨a, b⟩ := p
  simp only [rowMajor, List.mem_flatMap, List.mem_map, List.mem_range, Prod.mk.injEq]
  constructor
  · rintro ⟨y, hy, x, hx, rfl, rfl⟩
    exact ⟨hy, hx⟩
  · rintro ⟨h1, h2⟩
    exact ⟨a, h1, b, h2, rfl, rfl⟩

theorem rowMajor_pairwise (R C : Nat) : (rowMajor R C).Pairwise cellLt := by
  induction R with
  | zero => simp [rowMajor]
  | succ n ih =>
    have hsp : rowMajor (n + 1) C = rowMajor n C ++ (List.range C).map (fun x => (n, x)) := by
      simp [rowMajor, List.range_succ]
    rw [hsp, List.pairwise_append]
    refine ⟨ih, ?_, ?_⟩
    · rw [List.pairwise_map]
      exact (List.pairwise_lt_range C).imp fun h => Or.inr ⟨rfl, h⟩
    · intro p hp q hq
      obtain ⟨hp1, _⟩ := mem_rowMajor.mp hp
      obtain ⟨x, _, rfl⟩ := List.mem_map.mp hq
      exact Or.inl hp1

theorem rowMajor_split {R C ys xs : Nat} (hy : ys < R) (hx : xs < C) :
    ∃ L1 L2, rowMajor R C = L1 ++ (ys, xs) :: L2 ∧
      ∀ q ∈ L2, q.1 < R ∧ q.2 < C ∧ cellLt (ys, xs) q := by
  have hmem : (ys, xs) ∈ rowMajor R C := mem_rowMajor.mpr ⟨hy, hx⟩
  obtain ⟨L1, L2, hsplit⟩ := List.append_of_mem hmem
  refine ⟨L1, L2, hsplit, fun q hq => ?_⟩
  have hqmem : q ∈ rowMajor R C := by
    rw [hsplit]; exact List.mem_append_right _ (List.mem_cons_of_mem _ hq)
  have hpw := rowMajor_pairwise R C
  rw [hsplit] at hpw
  exact ⟨(mem_rowMajor.mp hqmem).1, (mem_rowMajor.mp hqmem).2,
    (List.pairwise_cons.mp (List.pairwise_append.mp hpw).2.1).1 q hq⟩

/-- Last-writer rule for a raster fold over a row-major grid: a cell that writes
the queried pixel and is followed only by cells that leave it alone decides the
final value. -/
theorem foldl_rowMajor_last (step : Raster → Nat × Nat → Raster) (R C x y ys xs : Nat)
    (v : Pixel) (hy : ys < R) (hx : xs < C)
    (hwrite : ∀ s : Raster, (step s (ys, xs)).get x y = v)
    (hafter : ∀ q : Nat × Nat, q.1 < R → q.2 < C → cellLt (ys, xs) q →
      ∀ s : Raster, (step s q).get x y = s.get x y)
    (init : Raster) : ((rowMajor R C).foldl step init).get x y = v := by
  obtain ⟨L1, L2, hsplit, hL2⟩ := rowMajor_split hy hx
  rw [hsplit]
  exact foldl_get_last step L1 _ L2 x y v hwrite
    (fun q hq s => hafter q (hL2 q hq).1 (hL2 q hq).2.1 (hL2 q hq).2.2 s) init

theorem foldl_rowMajor_preserve (step : Raster → Nat × Nat → Raster) (R C x y : Nat)
    (h : ∀ q : Nat × Nat, q.1 < R → q.2 < C → ∀ s : Raster, (step s q).get x y = s.get x y)
    (init : Raster) : ((rowMajor R C).foldl step init).get x y = init.get x y :=
  foldl_get_preserve step _ x y
    (fun q hq s => h q (mem_rowMajor.mp hq).1 (mem_rowMajor.mp hq).2 s) init

theorem enumFrom_pairwise {α : Type} (k : Nat) (l : List α) :
    (List.enumFrom k l).Pairwise (fun p q => p.1 < q.1) := by
  induction l generalizing k with
  | nil => simp
  | cons a tl ih =>
    rw [List.enumFrom_cons, List.pairwise_cons]
    refine ⟨fun q hq => ?_, ih (k + 1)⟩
    obtain ⟨qi, qx⟩ := q
    exact Nat.lt_of_lt_of_le (Nat.lt_succ_self k) (List.mem_enumFrom hq).1

theorem enum_split {α : Type} (l : List α) (i : Nat) (hi : i < l.length) :
    ∃ L1 L2, l.enum = L1 ++ (i, l.get ⟨i, hi⟩) :: L2 ∧
      ∀ q ∈ L2, i < q.1 ∧ q.1 < l.length ∧ q.2 ∈ l := by
  have hmem : (i, l.get ⟨i, hi⟩) ∈ l.enum := by
    rw [List.mk_mem_enum_iff_getElem?, List.getElem?_eq_getElem hi]
    simp
  obtain ⟨L1, L2, hsplit⟩ := List.append_of_mem hmem
  refine ⟨L1, L2, hsplit, fun q hq => ?_⟩
  have hqmem : q ∈ List.enumFrom 0 l := by
    rw [← List.enum_eq_enumFrom, hsplit]
    exact List.mem_append_right _ (List.mem_cons_of_mem _ hq)
  have hpw := enumFrom_pairwise 0 l
  rw [← List.enum_eq_enumFrom, hsplit] at hpw
  refine ⟨(List.pairwise_cons.mp (List.pairwise_append.mp hpw).2.1).1 q hq, ?_,
    List.snd_mem_of_mem_enumFrom hqmem⟩
  obtain ⟨qi, qx⟩ := q
  have := (List.mem_enumFrom hqmem).2.1
  omega

/-- Last-writer rule at the frame level: a frame that writes the queried pixel
and is followed only by frames that leave it alone decides the final value. -/
theorem foldl_enum_last (frameStep : Raster → Nat × Raster → Raster)
    (images : List Raster) (i : Nat) (hi : i < images.length) (x y : Nat) (v : Pixel)
    (hwrite : ∀ s : Raster, (frameStep s (i, images.get ⟨i, hi⟩)).get x y = v)
    (hafter : ∀ j img, i < j → j < images.length → img ∈ images →
      ∀ s : Raster, (frameStep s (j, img)).get x y = s.get x y)
    (init : Raster) : (images.enum.foldl frameStep init).get x y = v := by
  obtain ⟨L1, L2, hsplit, hL2⟩ := enum_split images i hi
  rw [hsplit]
  refine foldl_get_last frameStep L1 _ L2 x y v hwrite (fun q hq s => ?_) init
  obtain ⟨qj, qimg⟩ := q
  exact hafter qj qimg (hL2 _ hq).1 (hL2 _ hq).2.1 (hL2 _ hq).2.2 s

theorem stitchCell_get_untouched (overlap totalH yOff i : Nat) (img : Raster)
    (x y : Nat) (c : Nat × Nat) (h : c.2 ≠ x ∨ uadd yOff c.1 ≠ y) (s : Raster) :
    (stitchCell overlap totalH yOff i img s c).get x y = s.get x y := by
  have h' : x ≠ c.2 ∨ y ≠ uadd yOff c.1 := h.imp Ne.symm Ne.symm
  unfold stitchCell
  split_ifs <;> first | rfl | exact Raster.get_put_other _ _ _ _ _ _ h'

theorem stitchCell_width (overlap totalH yOff i : Nat) (img s : Raster) (c : Nat × Nat) :
    (stitchCell overlap totalH yOff i img s c).width = s.width := by
  unfold stitchCell; split_ifs <;> rfl

theorem stitchCell_height (overlap totalH yOff i : Nat) (img s : Raster) (c : Nat × Nat) :
    (stitchCell overlap totalH yOff i img s c).height = s.height := by
  unfold stitchCell; split_ifs <;> rfl

theorem mainStitchCell_width (overlap totalH yOff i : Nat) (img s : Raster) (c : Nat × Nat) :
    (mainStitchCell overlap totalH yOff i img s c).width = s.width := by
  unfold mainStitchCell; split_ifs <;> rfl

theorem mainStitchCell_height (overlap totalH yOff i : Nat) (img s : Raster) (c : Nat × Nat) :
    (mainStitchCell overlap totalH yOff i img s c).height = s.height := by
  unfold mainStitchCell; split_ifs <;> rfl

theorem stitchFrame_width (overlap totalH H W : Nat) (res : Raster) (e : Nat × Raster) :
    (stitchFrame overlap totalH H W res e).width = res.width :=
  foldl_dim_preserve Raster.width _ _ (fun _ _ _ => stitchCell_width _ _ _ _ _ _ _) res

theorem stitchFrame_height (overlap totalH H W : Nat) (res : Raster) (e : Nat × Raster) :
    (stitchFrame overlap totalH H W res e).height = res.height :=
  foldl_dim_preserve Raster.height _ _ (fun _ _ _ => stitchCell_height _ _ _ _ _ _ _) res

theorem mainStitchFrame_width (overlap totalH H W : Nat) (res : Raster) (e : Nat × Raster) :
    (mainStitchFrame overlap totalH H W res e).width = res.width :=
  foldl_dim_preserve Raster.width _ _ (fun _ _ _ => mainStitchCell_width _ _ _ _ _ _ _) res

theorem mainStitchFrame_height (overlap totalH H W : Nat) (res : Raster) (e : Nat × Raster) :
    (mainStitchFrame overlap totalH H W res e).height = res.height :=
  foldl_dim_preserve Raster.height _ _ (fun _ _ _ => mainStitchCell_height _ _ _ _ _ _ _) res

/-- Effect of placing one frame in `stitch_images` (src/lib.rs): the queried
pixel becomes frame `i`'s pixel exactly when the cell condition of the copy loop
selects it, and is untouched otherwise. -/
theorem stitchFrame_get (overlap totalH H W i : Nat) (img res : Raster) (x y : Nat)
    (huadd : ∀ y0, y0 < H →
      uadd (umul i (usub H overlap)) y0 = umul i (usub H overlap) + y0) :
    (stitchFrame overlap totalH H W res (i, img)).get x y =
      if x < W ∧ umul i (usub H overlap) ≤ y ∧ y - umul i (usub H overlap) < H ∧
          y < totalH ∧ (i = 0 ∨ overlap / 2 ≤ y - umul i (usub H overlap))
      then img.get x (y - umul i (usub H overlap)) else res.get x y := by
  set yOff := umul i (usub H overlap) with hyOffDef
  show ((rowMajor H W).foldl (stitchCell overlap totalH yOff i img) res).get x y = _
  split_ifs with hW
  · obtain ⟨hx, hle, hlt, htot, hcopy⟩ := hW
    apply foldl_rowMajor_last _ H W x y (y - yOff) x _ hlt hx
    · intro s
      have htar : uadd yOff (y - yOff) = y := by rw [huadd _ hlt]; omega
      simp only [stitchCell, htar]
      rw [if_pos htot]
      by_cases hband : 0 < i ∧ y - yOff < overlap
      · have hhalf : overlap / 2 ≤ y - yOff := by
          rcases hcopy with h0 | h
          · omega
          · exact h
        rw [if_pos hband, if_pos hhalf]
        exact Raster.get_put_same _ _ _ _
      · rw [if_neg hband]
        exact Raster.get_put_same _ _ _ _
    · intro q hq1 hq2 hlex s
      apply stitchCell_get_untouched
      rcases hlex with h | ⟨he, hxlt⟩
      · right; rw [huadd _ hq1]; omega
      · left; omega
  · apply foldl_rowMajor_preserve
    intro q hq1 hq2 s
    by_cases hcx : q.2 = x
    · by_cases hcy : uadd yOff q.1 = y
      · rw [huadd _ hq1] at hcy
        simp only [stitchCell, huadd _ hq1, hcy]
        by_cases htot : y < totalH
        · rw [if_pos htot]
          have hi : ¬(i = 0 ∨ overlap / 2 ≤ q.1) := by
            intro hcon
            exact hW ⟨hcx ▸ hq2, by omega, by omega, htot, by
              have hyq : y - yOff = q.1 := by omega
              rw [hyq]; exact hcon⟩
          push_neg at hi
          rw [if_pos ⟨Nat.pos_of_ne_zero hi.1,
            lt_of_lt_of_le hi.2 (Nat.div_le_self overlap 2)⟩, if_neg (by omega)]
        · rw [if_neg htot]
      · exact stitchCell_get_untouched _ _ _ _ _ _ _ _ (Or.inr hcy) s
    · exact stitchCell_get_untouched _ _ _ _ _ _ _ _ (Or.inl hcx) s

/-- Master pixel lemma for `stitch_images` (src/lib.rs): when frame `i`'s copy
condition selects source row `y0` and no later frame's write window reaches the
corresponding output row, the output pixel is frame `i`'s pixel at `(x, y0)`. -/
theorem stitch_get_writer (images : List Raster) (overlap W H : Nat)
    (hdims : ∀ img ∈ images, img.width = W ∧ img.height = H)
    (hov : overlap ≤ H)
    (hbound : H + (images.length - 1) * (H - overlap) < UMOD)
    (i : Nat) (hi : i < images.length) (x y0 : Nat) (hx : x < W) (hy0 : y0 < H)
    (hcopy : i = 0 ∨ overlap / 2 ≤ y0)
    (hlast : ∀ j, i < j → j < images.length →
      i * (H - overlap) + y0 < j * (H - overlap) + overlap / 2) :
    (stitch_images images overlap).get x (i * (H - overlap) + y0) =
      (images.get ⟨i, hi⟩).get x y0 := by
  cases images with
  | nil => exact absurd hi (by simp)
  | cons first rest =>
    have hfw : first.width = W := (hdims first (List.mem_cons_self _ _)).1
    have hfh : first.height = H := (hdims first (List.mem_cons_self _ _)).2
    have hmul : ∀ j, j < (first :: rest).length →
        umul j (usub H overlap) = j * (H - overlap) ∧
        j * (H - overlap) + H ≤ H + ((first :: rest).length - 1) * (H - overlap) := by
      intro j hj
      have h1 : j * (H - overlap) ≤ ((first :: rest).length - 1) * (H - overlap) :=
        Nat.mul_le_mul_right _ (by omega)
      refine ⟨?_, by omega⟩
      rw [usub_of_le hov]
      exact umul_of_lt (by omega)
    have huadds : ∀ j, j < (first :: rest).length → ∀ y1, y1 < H →
        uadd (umul j (usub H overlap)) y1 = umul j (usub H overlap) + y1 := by
      intro j hj y1 hy1
      rw [(hmul j hj).1]
      exact uadd_of_lt (by have := (hmul j hj).2; omega)
    have htotal : uadd H (umul ((first :: rest).length - 1) (usub H overlap)) =
        H + ((first :: rest).length - 1) * (H - overlap) := by
      rw [usub_of_le hov, umul_of_lt (by omega), uadd_of_lt hbound]
    simp only [stitch_images]
    rw [hfw, hfh, htotal]
    apply foldl_enum_last (stitchFrame overlap
      (H + ((first :: rest).length - 1) * (H - overlap)) H W) (first :: rest) i hi
    · intro s
      rw [stitchFrame_get _ _ _ _ _ _ _ _ _ (huadds i hi)]
      have hyoff := (hmul i hi).1
      rw [hyoff]
      have hsub : i * (H - overlap) + y0 - i * (H - overlap) = y0 := by omega
      rw [if_pos ⟨hx, by omega, by omega, by have := (hmul i hi).2; omega, by
        rw [hsub]; exact hcopy⟩, hsub]
    · intro j img' hij hj _ s
      rw [stitchFrame_get _ _ _ _ _ _ _ _ _ (huadds j hj)]
      rw [if_neg ?_]
      intro hcon
      obtain ⟨_, hle2, _, _, hor⟩ := hcon
      rw [(hmul j hj).1] at hle2 hor
      have hlt := hlast j hij hj
      rcases hor with h0 | hh
      · omega
      · omega

/-- Dimensions of the src/lib.rs stitcher output, under sane `u32` bounds. -/
theorem stitch_images_dims (images : List Raster) (overlap W H : Nat)
    (hne : images ≠ []) (hdims : ∀ img ∈ images, img.width = W ∧ img.height = H)
    (hov : overlap ≤ H)
    (hbound : H + (images.length - 1) * (H - overlap) < UMOD) :
    (stitch_images images overlap).width = W ∧
      (stitch_images images overlap).height =
        H + (images.length - 1) * (H - overlap) := by
  cases images with
  | nil => exact absurd rfl hne
  | cons first rest =>
    have hfw : first.width = W := (hdims first (List.mem_cons_self _ _)).1
    have hfh : first.height = H := (hdims first (List.mem_cons_self _ _)).2
    have htotal : uadd H (umul ((first :: rest).length - 1) (usub H overlap)) =
        H + ((first :: rest).length - 1) * (H - overlap) := by
      have h1 : ((first :: rest).length - 1) * (H - overlap) ≤
          H + ((first :: rest).length - 1) * (H - overlap) := Nat.le_add_left _ _
      rw [usub_of_le hov, umul_of_lt (by omega), uadd_of_lt hbound]
    simp only [stitch_images]
    rw [hfw, hfh, htotal]
    constructor
    · rw [foldl_dim_preserve Raster.width _ _
        (fun e _ s => stitchFrame_width _ _ _ _ s e)]
      rfl
    · rw [foldl_dim_preserve Raster.height _ _
        (fun e _ s => stitchFrame_height _ _ _ _ s e)]
      rfl

/-- Dimensions of the src/main.rs stitcher output, under sane `u32` bounds. -/
theorem main_stitch_images_dims (images : List Raster) (overlap W H : Nat)
    (hne : images ≠ []) (hdims : ∀ img ∈ images, img.width = W ∧ img.height = H)
    (hov : overlap ≤ H)
    (hbound : H + (images.length - 1) * (H - overlap) < UMOD) :
    (main_stitch_images images overlap).width = W ∧
      (main_stitch_images images overlap).height =
        H + (images.length - 1) * (H - overlap) := by
  cases images with
  | nil => exact absurd rfl hne
  | cons first rest =>
    have hfw : first.width = W := (hdims first (List.mem_cons_self _ _)).1
    have hfh : first.height = H := (hdims first (List.mem_cons_self _ _)).2
    have htotal : uadd H (umul ((first :: rest).length - 1) (usub H overlap)) =
        H + ((first :: rest).length - 1) * (H - overlap) := by
      have h1 : ((first :: rest).length - 1) * (H - overlap) ≤
          H + ((first :: rest).length - 1) * (H - overlap) := Nat.le_add_left _ _
      rw [usub_of_le hov, umul_of_lt (by omega), uadd_of_lt hbound]
    simp only [main_stitch_images]
    rw [hfw, hfh, htotal]
    constructor
    · rw [foldl_dim_preserve Raster.width _ _
        (fun e _ s => mainStitchFrame_width _ _ _ _ s e)]
      rfl
    · rw [foldl_dim_preserve Raster.height _ _
        (fun e _ s => mainStitchFrame_height _ _ _ _ s e)]
      rfl

/-- Single-column test raster of the given height with pixel red-channel values
taken from a list. -/
def colRaster (h : Nat) (vals : List Nat) : Raster :=
  ⟨1, h, fun _ y => ⟨vals.getD y 0, 0, 0, 0⟩⟩

def cF0 : Raster := colRaster 2 [10, 11]

def cF1 : Raster := colRaster 2 [20, 21]

def cF2 : Raster := colRaster 2 [30, 31]

def cG0 : Raster := colRaster 5 [100, 101, 102, 103, 104]

def cG1 : Raster := colRaster 5 [200, 201, 202, 203, 204]

def cG2 : Raster := colRaster 5 [300, 301, 302, 303, 304]

/-- Claim C1 is false as stated: with three frames of width 1, height 2 and
overlap 1, the output row 1·(2−1)+1 of the src/lib.rs stitcher holds frame 2's
half-band write, not frame 1's row 1 (the claim's value for every y in
[h/2, height)); with three frames of height 5 and overlap 4, output row
2·(5−4)+0 (a skipped row, y = 0 < 4/2) holds frame 0's pixel, not the
previously written pixel of frame 1 (frame 1 skipped that row too); and the
src/main.rs stitcher copy does not follow the half-band rule even for two
frames. -/
theorem c1_counterexample :
    ((1 : Nat) / 2 ≤ 1 ∧ 1 < 2 ∧
      (stitch_images [cF0, cF1, cF2] 1).get 0 (1 * (2 - 1) + 1) ≠ cF1.get 0 1) ∧
    ((0 : Nat) < 4 / 2 ∧
      (stitch_images [cG0, cG1, cG2] 4).get 0 (2 * (5 - 4) + 0) ≠
        cG1.get 0 (0 + (5 - 4))) ∧
    (1 : Nat) / 2 ≤ 0 ∧
    (main_stitch_images [cF0, cF1] 1).get 0 (1 * (2 - 1) + 0) ≠ cF1.get 0 0 := by
  decide

/-- Claim C1 (amended): in the src/lib.rs stitcher, frame i > 0 at vertical
offset i·(H−h) writes exactly its rows [h/2, H); hence the output pixel at row
i·(H−h)+y equals frame i's pixel (x, y) for y in [h/2, H) provided no later
frame overwrites it — always when i is the last frame, and for y < H−h+h/2
otherwise; and when the stride is at least half the band (h/2 ≤ H−h), the output
pixel at a skipped row y in [0, h/2) is frame i−1's pixel at (x, y+H−h). -/
theorem c1_stitcher_midpoint_rule (images : List Raster) (overlap W H : Nat)
    (hdims : ∀ img ∈ images, img.width = W ∧ img.height = H)
    (hov : overlap ≤ H)
    (hbound : H + (images.length - 1) * (H - overlap) < UMOD)
    (i : Nat) (hipos : 0 < i) (hi : i < images.length) (x : Nat) (hx : x < W) :
    (∀ y0, overlap / 2 ≤ y0 → y0 < H →
      (i = images.length - 1 ∨ y0 < H - overlap + overlap / 2) →
      (stitch_images images overlap).get x (i * (H - overlap) + y0) =
        (images.get ⟨i, hi⟩).get x y0) ∧
    (overlap / 2 ≤ H - overlap → ∀ y0, y0 < overlap / 2 →
      (stitch_images images overlap).get x (i * (H - overlap) + y0) =
        (images.get ⟨i - 1, by omega⟩).get x (y0 + (H - overlap))) := by
  constructor
  · intro y0 hhalf hy0 hlastcase
    apply stitch_get_writer images overlap W H hdims hov hbound i hi x y0 hx hy0
      (Or.inr hhalf)
    intro j hij hj
    have hle : (i + 1) * (H - overlap) ≤ j * (H - overlap) :=
      Nat.mul_le_mul_right _ (by omega)
    have heq : (i + 1) * (H - overlap) = i * (H - overlap) + (H - overlap) := by ring
    rcases hlastcase with hl | hl
    · omega
    · omega
  · intro hstride y0 hy0
    obtain ⟨k, rfl⟩ : ∃ k, i = k + 1 := ⟨i - 1, by omega⟩
    have hhalfov : overlap / 2 ≤ overlap := Nat.div_le_self overlap 2
    have hy0H : y0 + (H - overlap) < H := by omega
    have hrow : (k + 1) * (H - overlap) + y0 = k * (H - overlap) + (y0 + (H - overlap)) := by
      have heq : (k + 1) * (H - overlap) = k * (H - overlap) + (H - overlap) := by ring
      omega
    rw [hrow]
    have hk : k < images.length := by omega
    have := stitch_get_writer images overlap W H hdims hov hbound k hk x
      (y0 + (H - overlap)) hx hy0H (Or.inr (by omega)) ?_
    · rw [this]
      congr 1
    · intro j hkj hj
      have hle : (k + 1) * (H - overlap) ≤ j * (H - overlap) :=
        Nat.mul_le_mul_right _ (by omega)
      have heq : (k + 1) * (H - overlap) = k * (H - overlap) + (H - overlap) := by ring
      omega

/-- Claim C1 witness: two frames of width 1, height 4, overlap 2: frame 1's band
row 1 (= h/2) lands verbatim at output row 3, and skipped row 0 keeps frame 0's
pixel at source row 2. -/
theorem c1_witness :
    (stitch_images [colRaster 4 [1, 2, 3, 4], colRaster 4 [3, 4, 5, 6]] 2).get 0
        (1 * (4 - 2) + 1) = (colRaster 4 [3, 4, 5, 6]).get 0 1 ∧
    (stitch_images [colRaster 4 [1, 2, 3, 4], colRaster 4 [3, 4, 5, 6]] 2).get 0
        (1 * (4 - 2) + 0) = (colRaster 4 [1, 2, 3, 4]).get 0 (0 + (4 - 2)) := by
  have h := c1_stitcher_midpoint_rule
    [colRaster 4 [1, 2, 3, 4], colRaster 4 [3, 4, 5, 6]] 2 1 4
    (by intro img hm
        rcases List.mem_cons.mp hm with rfl | hm2
        · exact ⟨rfl, rfl⟩
        · rcases List.mem_cons.mp hm2 with rfl | hm3
          · exact ⟨rfl, rfl⟩
          · cases hm3)
    (by omega) (by norm_num [UMOD]) 1 (by omega) (by norm_num) 0 (by omega)
  exact ⟨h.1 1 (by omega) (by omega) (Or.inl rfl), h.2 (by omega) 0 (by omega)⟩

/-- Claim C6: stitching N same-size frames of height H, width W with overlap O
yields output width W and height exactly H + (N−1)·(H−O), in both the src/lib.rs
stitcher and the src/main.rs copy (whose size computations are identical). -/
theorem c6_stitch_output_dims (images : List Raster) (O W H : Nat)
    (hne : images ≠ []) (hdims : ∀ img ∈ images, img.width = W ∧ img.height = H)
    (hov : O ≤ H) (hbound : H + (images.length - 1) * (H - O) < UMOD) :
    ((stitch_images images O).width = W ∧
      (stitch_images images O).height = H + (images.length - 1) * (H - O)) ∧
    ((main_stitch_images images O).width = W ∧
      (main_stitch_images images O).height = H + (images.length - 1) * (H - O)) :=
  ⟨stitch_images_dims images O W H hne hdims hov hbound,
   main_stitch_images_dims images O W H hne hdims hov hbound⟩

/-- Claim C6 witness: two frames 1×2 with overlap 1 stitch to a 1×3 output in
both stitcher copies. -/
theorem c6_witness :
    (stitch_images [cF0, cF1] 1).height = 3 ∧
    (main_stitch_images [cF0, cF1] 1).height = 3 := by
  have h := c6_stitch_output_dims [cF0, cF1] 1 1 2
    (List.cons_ne_nil _ _)
    (by intro img hm
        rcases List.mem_cons.mp hm with rfl | hm2
        · exact ⟨rfl, rfl⟩
        · rcases List.mem_cons.mp hm2 with rfl | hm3
          · exact ⟨rfl, rfl⟩
          · cases hm3)
    (by omega) (by norm_num [UMOD])
  exact ⟨h.1.2, h.2.2⟩

/-- Claim C7: stitching a single-frame sequence returns that frame unchanged in
dimensions and in-bounds pixel content, regardless of the overlap value (the
frame height being a `u32` value). -/
theorem c7_single_frame_stitch (A : Raster) (O : Nat) (hH : A.height < UMOD) :
    (stitch_images [A] O).width = A.width ∧
    (stitch_images [A] O).height = A.height ∧
    ∀ x, x < A.width → ∀ y, y < A.height → (stitch_images [A] O).get x y = A.get x y := by
  have hmul0 : umul 0 (usub A.height O) = 0 := by
    simp [umul, Nat.zero_mod]
  have h0 : ([A] : List Raster).length - 1 = 0 := rfl
  have htotal : uadd A.height (umul (([A] : List Raster).length - 1) (usub A.height O)) =
      A.height := by
    rw [h0, hmul0, uadd_of_lt (by omega)]
    exact Nat.add_zero _
  have huadd : ∀ y0, y0 < A.height →
      uadd (umul 0 (usub A.height O)) y0 = umul 0 (usub A.height O) + y0 := by
    intro y0 hy0
    rw [hmul0]
    exact uadd_of_lt (by omega)
  have henum : ([A] : List Raster).enum = [(0, A)] := rfl
  simp only [stitch_images, htotal, henum, List.foldl_cons, List.foldl_nil]
  refine ⟨?_, ?_, ?_⟩
  · rw [stitchFrame_width]; rfl
  · rw [stitchFrame_height]; rfl
  · intro x hx y hy
    rw [stitchFrame_get _ _ _ _ _ _ _ _ _ huadd, hmul0,
      if_pos ⟨hx, Nat.zero_le _, by omega, hy, Or.inl rfl⟩, Nat.sub_zero]

/-- Claim C7 witness: a concrete 1×2 frame is returned unchanged for overlap 7
(larger than the frame height). -/
theorem c7_witness :
    (stitch_images [cF0] 7).width = 1 ∧ (stitch_images [cF0] 7).height = 2 ∧
    (stitch_images [cF0] 7).get 0 1 = cF0.get 0 1 := by
  have h := c7_single_frame_stitch cF0 7 (by norm_num [cF0, colRaster, UMOD])
  exact ⟨h.1, h.2.1, h.2.2 0 (by norm_num [cF0, colRaster]) 1 (by norm_num [cF0, colRaster])⟩

theorem similarThreshold_eq_zero (n : Nat) : similarThreshold n = 0 := by
  simp [similarThreshold]

/-- With a zero mismatch budget the band scan succeeds exactly when every
scanned pair of pixels agrees. -/
theorem similarScan_true_iff (img1 img2 : Raster) (startY1 total : Nat)
    (L : List (Nat × Nat)) (d : Nat) :
    (similarScan img1 img2 startY1 total 0 L d).1 = true ↔
      ∀ p ∈ L, img1.get p.2 (startY1 + p.1) = img2.get p.2 p.1 := by
  induction L generalizing d with
  | nil => simp [similarScan]
  | cons p rest ih =>
    obtain ⟨py, px⟩ := p
    by_cases h : img1.get px (startY1 + py) = img2.get px py
    · simp only [similarScan, h, ne_eq, not_true_eq_false, if_false, ih,
        List.forall_mem_cons]
      tauto
    · simp [similarScan, h]

/-- With a zero mismatch budget the NaN-aware band scan succeeds exactly when
every scanned pair of pixels agrees. -/
theorem similarScanF_true_iff (img1 img2 : Raster) (startY1 total : Nat)
    (L : List (Nat × Nat)) (d : Nat) :
    (similarScanF img1 img2 startY1 total 0 L d).1 = true ↔
      ∀ p ∈ L, img1.get p.2 (startY1 + p.1) = img2.get p.2 p.1 := by
  induction L generalizing d with
  | nil => simp [similarScanF]
  | cons p rest ih =>
    obtain ⟨py, px⟩ := p
    by_cases h : img1.get px (startY1 + py) = img2.get px py
    · simp only [similarScanF, h, ne_eq, not_true_eq_false, if_false, ih,
        List.forall_mem_cons]
      tauto
    · simp [similarScanF, h]

/-- With a zero mismatch budget a successful scan leaves `diff_count` untouched,
so the reported percentage is the one computed from the entry count. -/
theorem similarScanF_true_diff (img1 img2 : Raster) (startY1 total : Nat)
    (L : List (Nat × Nat)) (d : Nat) :
    (similarScanF img1 img2 startY1 total 0 L d).1 = true →
    (similarScanF img1 img2 startY1 total 0 L d).2 = pctF32 d total := by
  induction L generalizing d with
  | nil => intro _; rfl
  | cons p rest ih =>
    obtain ⟨py, px⟩ := p
    by_cases h : img1.get px (startY1 + py) = img2.get px py
    · simp only [similarScanF, h, ne_eq, not_true_eq_false, if_false]
      exact ih d
    · intro hcon
      simp [similarScanF, h] at hcon

/-- An empty band (zero overlap height or zero width) yields an empty scan. -/
theorem rowMajor_eq_nil (rows cols : Nat) (h : rows * cols = 0) :
    rowMajor rows cols = [] := by
  rcases Nat.mul_eq_zero.mp h with h0 | h0 <;> subst h0 <;> simp [rowMajor]

/-- The band scan reads only the scanned positions of either raster. -/
theorem similarScan_congr (img1 img2 img1' img2' : Raster)
    (startY1 total threshold : Nat) (L : List (Nat × Nat)) (d : Nat) :
    (∀ p ∈ L, img1'.get p.2 (startY1 + p.1) = img1.get p.2 (startY1 + p.1) ∧
      img2'.get p.2 p.1 = img2.get p.2 p.1) →
    similarScan img1' img2' startY1 total threshold L d =
      similarScan img1 img2 startY1 total threshold L d := by
  induction L generalizing d with
  | nil => intro _; rfl
  | cons p rest ih =>
    intro hagree
    obtain ⟨py, px⟩ := p
    have hp := hagree (py, px) (List.mem_cons_self _ _)
    have hrest := fun q hq => hagree q (List.mem_cons_of_mem _ hq)
    simp only [similarScan, hp.1, hp.2]
    split_ifs <;> first | rfl | exact ih _ hrest

def cA1 : Raster := ⟨2, 2, fun x y => ⟨10 * y + x, 0, 0, 0⟩⟩

def cB1 : Raster := ⟨2, 2, fun x y => ⟨10 * (y + 1) + x, 0, 0, 0⟩⟩

/-- Claim C3: for equal-dimension rasters and an overlap strictly between 0 and
the height, the zero-threshold overlap comparison reports similar exactly when
the bottom h rows of A equal the top h rows of B pixel-for-pixel, and its whole
result is unchanged by modifying any pixel outside that band. -/
theorem c3_overlap_similarity_band (A B : Raster) (W H h : Nat)
    (hAw : A.width = W) (hAh : A.height = H) (hBw : B.width = W) (hBh : B.height = H)
    (hpos : 0 < h) (hlt : h < H) :
    ((images_are_similar A B h).1 = true ↔
      ∀ y, y < h → ∀ x, x < W → A.get x (H - h + y) = B.get x y) ∧
    (∀ A' B', A'.width = W → A'.height = H → B'.width = W → B'.height = H →
      (∀ y, y < h → ∀ x, x < W →
        A'.get x (H - h + y) = A.get x (H - h + y) ∧ B'.get x y = B.get x y) →
      images_are_similar A' B' h = images_are_similar A B h) := by
  have hbranch : ∀ (X Y : Raster), X.width = W → X.height = H → Y.width = W →
      Y.height = H → images_are_similar X Y h =
        similarScan X Y (H - h) (umul h W) 0 (rowMajor h W) 0 := by
    intro X Y hXw hXh hYw hYh
    unfold images_are_similar
    rw [if_neg (by rw [hXw, hXh, hYw, hYh]; simp), if_neg (by omega),
      hXw, hXh, similarThreshold_eq_zero]
  constructor
  · rw [hbranch A B hAw hAh hBw hBh, similarScan_true_iff]
    constructor
    · intro hall y hy x hx
      exact hall (y, x) (mem_rowMajor.mpr ⟨hy, hx⟩)
    · intro hall p hp
      exact hall p.1 (mem_rowMajor.mp hp).1 p.2 (mem_rowMajor.mp hp).2
  · intro A' B' hA'w hA'h hB'w hB'h hband
    rw [hbranch A B hAw hAh hBw hBh, hbranch A' B' hA'w hA'h hB'w hB'h]
    apply similarScan_congr
    intro p hp
    exact hband p.1 (mem_rowMajor.mp hp).1 p.2 (mem_rowMajor.mp hp).2

/-- Claim C3 witness: a concrete pair whose one-row band agrees is reported
similar, via the amended iff at a shifted pair of 2×2 rasters. -/
theorem c3_witness : (images_are_similar cA1 cB1 1).1 = true :=
  (c3_overlap_similarity_band cA1 cB1 2 2 1 rfl rfl rfl rfl (by omega)
    (by omega)).1.mpr (by decide)

/-- Claim C5: mismatched dimensions make the identity comparison report
not-identical and the overlap comparison report not-similar with a 100%
difference; both functions are total, so no error is signalled. -/
theorem c5_dimension_mismatch (A B : Raster) (h : Nat)
    (hmis : A.width ≠ B.width ∨ A.height ≠ B.height) :
    images_are_identical A B = false ∧ images_are_similar A B h = (false, 100) := by
  constructor
  · unfold images_are_identical
    rw [if_pos hmis]
  · unfold images_are_similar
    rw [if_pos hmis]

/-- Claim C5 witness: a 2×2 and a 1×2 raster compare as not identical and
(not similar, 100). -/
theorem c5_witness :
    images_are_identical cA1 cF0 = false ∧
    images_are_similar cA1 cF0 1 = (false, 100) :=
  c5_dimension_mismatch cA1 cF0 1 (Or.inl (by decide))

/-- Claim C10 is false as stated: at the reachable input overlap = 0 (plain
`--overlap 0`), the routine scans an empty band, `total_pixels = 0`, and the
percentage accompanying the `similar = true` verdict is `0.0 / 0.0 × 100.0` —
NaN (modelled `none`), not 0. -/
theorem c10_counterexample :
    images_are_similar_f32 cA1 cA1 0 = (true, none) ∧
    (none : Option ℚ) ≠ some 0 ∧
    umul 0 cA1.width = 0 := by
  decide

/-- Claim C10 (amended): the mismatch budget of `images_are_similar` is
hard-coded to `floor(h·width·0.00) = 0` (in both verbatim copies of the
routine); whenever the comparison returns similar = true over a nonempty overlap
band (`total_pixels = h·width > 0`), the difference percentage it returns is
exactly 0; a single differing pixel in the overlap band already forces a
not-similar verdict; and over a genuinely empty band the routine returns
similar = true with a NaN percentage. -/
theorem c10_zero_threshold_nonempty_band :
    (∀ n, similarThreshold n = 0) ∧
    (∀ (A B : Raster) (h : Nat), 0 < umul h A.width →
      (images_are_similar_f32 A B h).1 = true →
      (images_are_similar_f32 A B h).2 = some 0) ∧
    (∀ (A B : Raster) (h : Nat), A.width = B.width → A.height = B.height →
      h < A.height →
      (∃ y, y < h ∧ ∃ x, x < A.width ∧ A.get x (A.height - h + y) ≠ B.get x y) →
      (images_are_similar_f32 A B h).1 = false) ∧
    (∀ (A B : Raster) (h : Nat), A.width = B.width → A.height = B.height →
      h < A.height → h * A.width = 0 →
      images_are_similar_f32 A B h = (true, none)) := by
  refine ⟨similarThreshold_eq_zero, ?_, ?_, ?_⟩
  · intro A B h hpos htrue
    unfold images_are_similar_f32 at htrue ⊢
    by_cases h1 : A.width ≠ B.width ∨ A.height ≠ B.height
    · rw [if_pos h1] at htrue
      exact absurd htrue (by simp)
    · rw [if_neg h1] at htrue ⊢
      by_cases h2 : A.height ≤ h
      · rw [if_pos h2] at htrue
        exact absurd htrue (by simp)
      · rw [if_neg h2] at htrue ⊢
        rw [similarThreshold_eq_zero] at htrue ⊢
        rw [similarScanF_true_diff _ _ _ _ _ _ htrue]
        simp [pctF32, Nat.pos_iff_ne_zero.mp hpos]
  · intro A B h hw hh hlt hdiff
    obtain ⟨y, hy, x, hx, hne⟩ := hdiff
    unfold images_are_similar_f32
    rw [if_neg (by rw [hw, hh]; simp), if_neg (by omega), similarThreshold_eq_zero]
    rw [Bool.eq_false_iff]
    intro htrue
    exact hne (similarScanF_true_iff _ _ _ _ _ _ |>.mp htrue (y, x)
      (mem_rowMajor.mpr ⟨hy, hx⟩))
  · intro A B h hw hh hlt hzero
    unfold images_are_similar_f32
    rw [if_neg (by rw [hw, hh]; simp), if_neg (by omega),
      rowMajor_eq_nil h A.width hzero]
    have hmul : umul h A.width = 0 := by simp [umul, hzero]
    simp [similarScanF, hmul, pctF32]

/-- Claim C10 witness: a similar pair over a nonempty one-row band reports
exactly 0, one differing band pixel forces not-similar, and an empty band
(overlap 0) yields the NaN verdict. -/
theorem c10_witness :
    (images_are_similar_f32 cA1 cB1 1).2 = some 0 ∧
    (images_are_similar_f32 cA1 cA1 1).1 = false ∧
    images_are_similar_f32 cA1 cA1 0 = (true, none) := by
  refine ⟨c10_zero_threshold_nonempty_band.2.1 cA1 cB1 1 (by decide) (by decide),
    ?_, ?_⟩
  · exact c10_zero_threshold_nonempty_band.2.2.1 cA1 cA1 1 rfl rfl (by decide)
      ⟨0, by decide, 0, by decide, by decide⟩
  · exact c10_zero_threshold_nonempty_band.2.2.2 cA1 cA1 0 rfl rfl (by decide)
      (by decide)

def cP : Raster := colRaster 1 [5]

def cQ : Raster := colRaster 1 [6]

def cD0 : Raster := colRaster 2 [1, 2]

def cD1 : Raster := colRaster 2 [2, 3]

/-- Claim C2 is false for the cited src/main.rs copy of `capture_with_scroll`:
its loop breaks on the overlap-similarity comparison, not the full-frame
identity comparison.  Concretely, with overlap 1: a byte-identical 1×1 capture
(identity reports identical, but overlap ≥ height makes similarity report
not-similar) is appended and the scroll count incremented instead of the loop
proceeding to stitching; and two non-identical 1×2 captures whose one-row
overlap bands agree (identity reports non-identical) end the loop instead of it
continuing to scroll. -/
theorem c2_counterexample :
    ((0 : Nat) < 10 ∧ images_are_identical cP cP = true ∧
      mainLoopStep 10 1 ⟨[cP], cP, 0⟩ cP false =
        StepResult.next ⟨[cP] ++ [cP], cP, 0 + 1⟩) ∧
    ((0 : Nat) < 10 ∧ images_are_identical cD0 cD1 = false ∧
      mainLoopStep 10 1 ⟨[cD0], cD0, 0⟩ cD1 false =
        StepResult.stitchNow ⟨[cD0], cD0, 0⟩) :=
  ⟨⟨by decide, by decide, rfl⟩, ⟨by decide, by decide, rfl⟩⟩

/-- Claim C2 (amended): in the direct screenshot loop of src/lib.rs
`capture_with_scroll`, when the newly acquired capture is identical to the
previous one (full-frame identity comparison) the iteration breaks straight to
stitching — the duplicate is not appended, the scroll count is not incremented,
and the remaining input stream is never consumed (no further scroll happens);
when the comparison reports non-identical and neither the max-scroll limit nor a
user stop intervenes, the loop continues with the capture appended and the count
incremented.  (The src/main.rs copy of the loop instead breaks on the
overlap-similarity comparison, recorded by the counterexample above.) -/
theorem c2_identity_ends_loop (maxScrolls : Option Nat) (st : LoopState)
    (cap : Raster) (stop : Bool) (rest : List (Raster × Bool))
    (hlimit : ∀ m, maxScrolls = some m → st.scrollCount < m) :
    (images_are_identical st.previous cap = true →
      loopStep maxScrolls st cap stop = StepResult.stitchNow st ∧
      runLoop maxScrolls st ((cap, stop) :: rest) = st) ∧
    (images_are_identical st.previous cap = false → stop = false →
      loopStep maxScrolls st cap stop =
        StepResult.next ⟨st.images ++ [cap], cap, st.scrollCount + 1⟩) := by
  have hstep : loopStep maxScrolls st cap stop = loopBody st cap stop := by
    cases maxScrolls with
    | none => rfl
    | some m =>
      have := hlimit m rfl
      simp only [loopStep]
      rw [if_neg (by omega)]
  constructor
  · intro hid
    have h1 : loopBody st cap stop = StepResult.stitchNow st := by
      unfold loopBody
      rw [if_pos hid]
    refine ⟨hstep.trans h1, ?_⟩
    simp only [runLoop]
    rw [hstep.trans h1]
  · intro hnid hstop
    rw [hstep]
    unfold loopBody
    rw [if_neg (by simp [hnid]), hstop, if_neg (by simp)]

/-- Claim C2 witness: a duplicate capture ends a concrete run with the state
unchanged; a fresh capture is appended with the count bumped to 1. -/
theorem c2_witness :
    (loopStep none (initialLoopState cP) cP false =
        StepResult.stitchNow (initialLoopState cP) ∧
      runLoop none (initialLoopState cP) [(cP, false)] = initialLoopState cP) ∧
    loopStep none (initialLoopState cP) cQ false =
      StepResult.next ⟨[cP] ++ [cQ], cQ, 0 + 1⟩ := by
  refine ⟨(c2_identity_ends_loop none (initialLoopState cP) cP false []
    (fun m hm => by cases hm)).1 (by decide), ?_⟩
  exact (c2_identity_ends_loop none (initialLoopState cP) cQ false []
    (fun m hm => by cases hm)).2 (by decide) rfl

/-- Claim C4 is false as stated: with both `--crop "10,20,300,400"` and
`--crop-preset 1080p` supplied, `main` resolves the preset's stored string
`"0,0,1920,1080"` — not the explicit rectangle string — and the GUI path behaves
the same way, so the resolved crop region is (0,0,1920,1080), not
(10,20,300,400). -/
theorem c4_counterexample :
    resolveCropValue (some "1080p") (some "10,20,300,400")
        (fun n => (get_builtin_presets).lookup n) = Except.ok (some "0,0,1920,1080") ∧
    gui_crop_option true "1080p" (fun n => (get_builtin_presets).lookup n) true
        10 20 300 400 = some "0,0,1920,1080" ∧
    parse_crop_region "0,0,1920,1080" = some (0, 0, 1920, 1080) ∧
    parse_crop_region "10,20,300,400" = some (10, 20, 300, 400) ∧
    ((0, 0, 1920, 1080) : Int × Int × Int × Int) ≠ (10, 20, 300, 400) := by
  refine ⟨rfl, rfl, by decide, by decide, by decide⟩

/-- Claim C4 (amended): when both an explicit rectangle string and a named
preset are supplied, the preset takes precedence: `main` resolves the preset's
stored rectangle string and ignores the explicit one (a missing preset name is a
fatal error), `--crop` being consulted only when no preset is named; the GUI
path likewise consults the preset branch first. -/
theorem c4_amended_preset_wins :
    (∀ (name v : String) (crop : Option String) (P : String → Option String),
      P name = some v → resolveCropValue (some name) crop P = Except.ok (some v)) ∧
    (∀ (crop : Option String) (P : String → Option String),
      resolveCropValue none crop P = Except.ok crop) ∧
    (∀ (sel : String) (P : String → Option String) (ce : Bool) (cx cy cw ch : Int),
      sel ≠ "" → gui_crop_option true sel P ce cx cy cw ch = P sel) := by
  refine ⟨?_, fun crop P => rfl, ?_⟩
  · intro name v crop P hP
    simp only [resolveCropValue]
    rw [hP]
  · intro sel P ce cx cy cw ch hsel
    unfold gui_crop_option
    rw [if_pos ⟨rfl, hsel⟩]

/-- Claim C4 amended witness: a concrete preset lookup wins over a supplied
explicit string, in both the CLI and the GUI resolution. -/
theorem c4_amended_witness :
    resolveCropValue (some "vm-small") (some "1,2,3,4")
        (fun n => (get_builtin_presets).lookup n) =
      Except.ok (some "100,100,1024,768") ∧
    gui_crop_option true "vm-small" (fun n => (get_builtin_presets).lookup n)
        false 0 0 0 0 = List.lookup "vm-small" get_builtin_presets := by
  refine ⟨c4_amended_preset_wins.1 "vm-small" "100,100,1024,768" (some "1,2,3,4")
    _ (by decide), ?_⟩
  exact c4_amended_preset_wins.2.2 "vm-small" _ false 0 0 0 0 (by decide)

def cR3 : Raster := ⟨3, 3, fun x y => ⟨10 * y + x, 0, 0, 0⟩⟩

/-- Claim C8 is false as stated: a crop region with a negative x offset does not
fit within the raster's bounds, yet `capture_screen` clamps it to x = 0 first
and then crops, returning a 2×2 sub-rectangle rather than the full 3×3 raster. -/
theorem c8_counterexample :
    ¬ regionWithinBounds (-1) 0 2 2 3 3 ∧
    cR3.width = 3 ∧ cR3.height = 3 ∧
    (apply_crop cR3 (some (-1, 0, 2, 2))).width = 2 ∧
    (apply_crop cR3 (some (-1, 0, 2, 2))).get 0 0 = cR3.get 0 0 := by
  decide

/-- Claim C8 (amended): `capture_screen` first clamps every crop coordinate to
be non-negative (`.max(0) as u32`) and applies the fit test to the clamped
rectangle; whenever the clamped rectangle does not fit, the full raster is
returned unchanged (the condition is only logged, and the function stays total —
no error); when it fits — which can happen for regions with negative offsets —
the clamped sub-rectangle is returned instead. -/
theorem c8_amended_clamped_crop (R : Raster) (cx cy cw ch : Int) :
    (¬((max cx 0).toNat + (max cw 0).toNat ≤ R.width ∧
        (max cy 0).toNat + (max ch 0).toNat ≤ R.height) →
      apply_crop R (some (cx, cy, cw, ch)) = R) ∧
    (((max cx 0).toNat + (max cw 0).toNat ≤ R.width ∧
        (max cy 0).toNat + (max ch 0).toNat ≤ R.height) →
      (apply_crop R (some (cx, cy, cw, ch))).width = (max cw 0).toNat ∧
      (apply_crop R (some (cx, cy, cw, ch))).height = (max ch 0).toNat ∧
      ∀ x, x < (max cw 0).toNat → ∀ y, y < (max ch 0).toNat →
        (apply_crop R (some (cx, cy, cw, ch))).get x y =
          R.get ((max cx 0).toNat + x) ((max cy 0).toNat + y)) := by
  constructor
  · intro hnofit
    simp only [apply_crop]
    rw [if_neg hnofit]
  · intro hfit
    simp only [apply_crop]
    rw [if_pos hfit]
    refine ⟨?_, ?_, ?_⟩
    · exact foldl_dim_preserve Raster.width _ _
        (fun c hc s => Raster.put_width _ _ _ _) _
    · exact foldl_dim_preserve Raster.height _ _
        (fun c hc s => Raster.put_height _ _ _ _) _
    · intro x hx y hy
      apply foldl_rowMajor_last _ _ _ x y y x _ hy hx
      · intro s
        exact Raster.get_put_same _ _ _ _
      · intro q hq1 hq2 hlex s
        apply Raster.get_put_other
        rcases hlex with hl | ⟨he, hl⟩
        · right; omega
        · left; omega

/-- Claim C8 amended witness: a clamped region that cannot fit returns the full
raster; a clamped negative-offset region that fits returns the sub-rectangle. -/
theorem c8_witness :
    apply_crop cR3 (some (5, 5, 5, 5)) = cR3 ∧
    (apply_crop cR3 (some (-1, 0, 2, 2))).get 1 1 = cR3.get (0 + 1) (0 + 1) := by
  refine ⟨(c8_amended_clamped_crop cR3 5 5 5 5).1 (by decide), ?_⟩
  exact ((c8_amended_clamped_crop cR3 (-1) 0 2 2).2 (by decide)).2.2 1 (by decide)
    1 (by decide)

/-- Claim C9: rectangle-string parsing treats comma, colon and space as
separators, parsing the three example spellings to (10,20,300,400); and it
returns `none` whenever the numeric field count differs from four or the third
or fourth field is non-positive, so the two failing examples parse to `none`. -/
theorem c9_parse_crop_region :
    (parse_crop_region "10,20,300,400" = some (10, 20, 300, 400) ∧
     parse_crop_region "10:20:300:400" = some (10, 20, 300, 400) ∧
     parse_crop_region "10 20 300 400" = some (10, 20, 300, 400) ∧
     parse_crop_region "10,20,0,400" = none ∧
     parse_crop_region "10,20,300" = none) ∧
    (∀ s, (cropFields s).length ≠ 4 → parse_crop_region s = none) ∧
    (∀ s a b w h, cropFields s = [a, b, w, h] → w ≤ 0 ∨ h ≤ 0 →
      parse_crop_region s = none) := by
  refine ⟨by decide, ?_, ?_⟩
  · intro s hlen
    unfold parse_crop_region
    split
    · rename_i a b w h heq
      exact absurd (by rw [heq]; rfl) hlen
    · rfl
  · intro s a b w h heq hwh
    unfold parse_crop_region
    split
    · rename_i a' b' w' h' heq'
      rw [heq] at heq'
      injection heq' with h1 t1
      injection t1 with h2 t2
      injection t2 with h3 t3
      injection t3 with h4 t4
      subst h3; subst h4
      rw [if_neg (by omega)]
    · rfl

/-- Claim C9 witness: the general failure conditions applied to the two failing
examples. -/
theorem c9_witness :
    parse_crop_region "10,20,300" = none ∧
    parse_crop_region "10,20,0,400" = none := by
  refine ⟨c9_parse_crop_region.2.1 "10,20,300" (by decide), ?_⟩
  exact c9_parse_crop_region.2.2 "10,20,0,400" 10 20 0 400 (by decide)
    (Or.inl (by decide))

end Capture
